import Mathlib

/-!
Shallow embedding of the tic-tac-toe engine in `src/game.rs`
(repository blackninja9939/tic_tac_toe) and verification of the
specification's claims about it.

Conventions of the embedding:
* Rust `usize` values are modelled as `Nat`; the one place where `usize`
  subtraction can underflow (`dimension.pow(2) - 1` in `GameBoard::new`) is
  modelled with a checked subtraction returning `Option Nat`, so that the
  debug-build panic on underflow appears as `none`.
* `&mut self` methods are modelled by explicit state passing: `make_move`
  returns the updated board next to the `Result` value, and returns the
  board unchanged on the error paths, exactly where the Rust method returns
  before mutating.
* Rust slice indexing `self.data[idx]` is modelled with `List.getD idx none`.
  At every call site reached by the program the index is in bounds (the
  coordinate was validated and `data` has length `dimension * dimension`),
  so the `getD` default is never consulted there.
* Fallible operations (`Result<T, E>`) are modelled with `Except E T`.
-/

/-- Embeds `struct Coordinate { x: usize, y: usize }`. -/
structure Coordinate where
  x : Nat
  y : Nat
deriving DecidableEq, Repr

/-- Embeds `enum PositionState { Nought, Cross }`. -/
inductive PositionState where
  | Nought
  | Cross
deriving DecidableEq, Repr

/-- Embeds `enum GameResult { Ongoing, Draw, NoughtWin, CrossWin }`. -/
inductive GameResult where
  | Ongoing
  | Draw
  | NoughtWin
  | CrossWin
deriving DecidableEq, Repr

/-- Embeds `impl From<PositionState> for GameResult`. -/
def GameResult.ofState : PositionState → GameResult
  | PositionState.Cross => GameResult.CrossWin
  | PositionState.Nought => GameResult.NoughtWin

/-- Embeds `enum MoveError { InvalidCoordinate(Coordinate), InvalidMove(PositionState, PositionState) }`. -/
inductive MoveError where
  | InvalidCoordinate (c : Coordinate)
  | InvalidMove (attempted occupying : PositionState)
deriving DecidableEq, Repr

/-- Models `std::num::ParseIntError` by its kind, restricted to the kinds an
unsigned parse can produce: empty input, an invalid digit, or positive
overflow. -/
inductive ParseIntError where
  | Empty
  | InvalidDigit
  | PosOverflow
deriving DecidableEq, Repr

/-- Embeds `enum ParseMoveError { FormatError, CoordinateError(ParseIntError) }`. -/
inductive ParseMoveError where
  | FormatError
  | CoordinateError (e : ParseIntError)
deriving DecidableEq, Repr

/-- Embeds `enum ParsedMove { Quit, Move(Coordinate) }`. -/
inductive ParsedMove where
  | Quit
  | Move (c : Coordinate)
deriving DecidableEq, Repr

/-- Largest value of a 64-bit `usize`. -/
def usizeMax : Nat := 2 ^ 64 - 1

/-- Digit-accumulation loop of Rust's `from_str_radix` at radix 10 for an
unsigned integer type: consume decimal digits left to right, failing with
`InvalidDigit` on a non-digit character and with `PosOverflow` when the
accumulated value leaves the `usize` range. -/
def parseDigits : List Char → Nat → Except ParseIntError Nat
  | [], acc => Except.ok acc
  | c :: cs, acc =>
    if c.isDigit then
      let v := acc * 10 + (c.toNat - '0'.toNat)
      if v ≤ usizeMax then parseDigits cs v else Except.error ParseIntError.PosOverflow
    else Except.error ParseIntError.InvalidDigit

/-- Embeds `str::parse::<usize>` (Rust `from_str_radix(src, 10)` for an
unsigned type): empty input fails with `Empty`; a lone sign character fails
with `InvalidDigit`; a leading `+` is skipped; a leading `-` is left in
place and then rejected as a non-digit, as in the unsigned Rust code path. -/
def parse_usize (s : List Char) : Except ParseIntError Nat :=
  match s with
  | [] => Except.error ParseIntError.Empty
  | c :: rest =>
    if (c = '+' ∨ c = '-') ∧ rest = [] then Except.error ParseIntError.InvalidDigit
    else if c = '+' then parseDigits rest 0
    else parseDigits (c :: rest) 0

/-- Embeds `input.split(',')` on the character list of the input: splitting
the empty string yields one empty field, and each comma starts a new field,
exactly as Rust's `str::split`. -/
def splitComma : List Char → List (List Char)
  | [] => [[]]
  | c :: cs =>
    let rest := splitComma cs
    if c = ',' then [] :: rest
    else
      match rest with
      | [] => [[c]]
      | r :: rs => (c :: r) :: rs

/-- Embeds `fn parse_move(input: &str) -> Result<ParsedMove, ParseMoveError>`. -/
def parse_move (input : String) : Except ParseMoveError ParsedMove :=
  if input = "q" ∨ input = "Q" then Except.ok ParsedMove.Quit
  else
    match splitComma input.data with
    | [a, b] =>
      match parse_usize a with
      | Except.error e => Except.error (ParseMoveError.CoordinateError e)
      | Except.ok x =>
        match parse_usize b with
        | Except.error e => Except.error (ParseMoveError.CoordinateError e)
        | Except.ok y => Except.ok (ParsedMove.Move { x := x, y := y })
    | _ => Except.error ParseMoveError.FormatError

/-- Embeds `struct PresetMoveReader { moves: Vec<String>, index: usize }`. -/
structure PresetMoveReader where
  moves : List String
  index : Nat
deriving DecidableEq, Repr

/-- Embeds `PresetMoveReader::new`: cursor starts at zero. -/
def PresetMoveReader.new (moves : List String) : PresetMoveReader :=
  { moves := moves, index := 0 }

/-- Embeds `<PresetMoveReader as GameInputReader>::read`, returning the
produced line together with the updated reader state. -/
def PresetMoveReader.read (r : PresetMoveReader) : Option String × PresetMoveReader :=
  if r.moves.length ≤ r.index then (none, r)
  else (some (r.moves.getD r.index ""), { r with index := r.index + 1 })

/-- Reader state after `k` successive calls to `read`. -/
def PresetMoveReader.afterReads (r : PresetMoveReader) : Nat → PresetMoveReader
  | 0 => r
  | k + 1 => ((r.afterReads k).read).2

/-- Line produced by the `(k+1)`-st call to `read` (zero-indexed `k`). -/
def PresetMoveReader.output (r : PresetMoveReader) (k : Nat) : Option String :=
  ((r.afterReads k).read).1

/-- Embeds `struct GameBoard`. -/
structure GameBoard where
  dimension : Nat
  data : List (Option PositionState)
  moves_made : Nat
  max_moves : Nat
deriving DecidableEq, Repr

/-- Checked `usize` subtraction: `none` models the debug-build panic on
underflow of Rust's `-` on `usize`. -/
def checkedSub (a b : Nat) : Option Nat :=
  if b ≤ a then some (a - b) else none

/-- Embeds `GameBoard::new`; the field initializer `dimension.pow(2) - 1`
underflows (panics) exactly when `dimension = 0`, which the `Option` result
records as `none`. -/
def GameBoard.new (dimension : Nat) : Option GameBoard :=
  (checkedSub (dimension ^ 2) 1).map fun max_moves =>
    { dimension := dimension
      data := List.replicate (dimension * dimension) none
      moves_made := 0
      max_moves := max_moves }

/-- Embeds `GameBoard::valid_coordinate`. -/
def GameBoard.valid_coordinate (b : GameBoard) (pos : Coordinate) : Bool :=
  decide (pos.x < b.dimension) && decide (pos.y < b.dimension)

/-- Embeds `GameBoard::to_index`. -/
def GameBoard.to_index (b : GameBoard) (pos : Coordinate) : Nat :=
  pos.x + pos.y * b.dimension

/-- Cell lookup `self.data[self.to_index(coord)]`; every program call site
has the index in bounds, so the `getD` default never applies there. -/
def GameBoard.cellAt (b : GameBoard) (pos : Coordinate) : Option PositionState :=
  b.data.getD (b.to_index pos) none

/-- Loop body of `GameBoard::determine_line_result`, run over the remaining
loop indices: break (yielding `none`) at the first empty or mismatching
cell, and return a win when index `dimension - 1` is reached with a match. -/
def lineGo (b : GameBoard) (state : PositionState) (f : Nat → Coordinate) :
    List Nat → Option GameResult
  | [] => none
  | i :: rest =>
    match b.cellAt (f i) with
    | some s =>
      if s ≠ state then none
      else if i = b.dimension - 1 then some (GameResult.ofState state)
      else lineGo b state f rest
    | none => none

/-- Embeds `GameBoard::determine_line_result` (`for i in 0..self.dimension`). -/
def GameBoard.determine_line_result (b : GameBoard) (state : PositionState)
    (f : Nat → Coordinate) : Option GameResult :=
  lineGo b state f (List.range b.dimension)

/-- Embeds `GameBoard::determine_game_result`: check the column through
`pos`, then the row, then the main diagonal when `pos.x = pos.y`, then the
anti-diagonal when `pos.x + pos.y = dimension - 1`; otherwise report a draw
when `moves_made` has reached `max_moves`, else ongoing. -/
def GameBoard.determine_game_result (b : GameBoard) (pos : Coordinate)
    (state : PositionState) : GameResult :=
  match b.determine_line_result state (fun y => { x := pos.x, y := y }) with
  | some result => result
  | none =>
    match b.determine_line_result state (fun x => { x := x, y := pos.y }) with
    | some result => result
    | none =>
      match (if pos.x = pos.y then
               b.determine_line_result state (fun i => { x := i, y := i })
             else none) with
      | some result => result
      | none =>
        match (if pos.x + pos.y = b.dimension - 1 then
                 b.determine_line_result state
                   (fun i => { x := i, y := b.dimension - 1 - i })
               else none) with
        | some result => result
        | none =>
          if b.moves_made = b.max_moves then GameResult.Draw else GameResult.Ongoing

/-- Embeds `GameBoard::make_move`; the first component is the board state
after the call (unchanged on both error paths, since the Rust method
returns before mutating `self` there). -/
def GameBoard.make_move (b : GameBoard) (pos : Coordinate)
    (new_state : PositionState) : GameBoard × Except MoveError GameResult :=
  if ¬ b.valid_coordinate pos then
    (b, Except.error (MoveError.InvalidCoordinate pos))
  else
    match b.cellAt pos with
    | some state => (b, Except.error (MoveError.InvalidMove new_state state))
    | none =>
      let b2 : GameBoard :=
        { b with data := b.data.set (b.to_index pos) (some new_state)
                 moves_made := b.moves_made + 1 }
      (b2, Except.ok (b2.determine_game_result pos new_state))

/-- Turn side swap performed by the game loop on an ongoing result. -/
def PositionState.other : PositionState → PositionState
  | PositionState.Cross => PositionState.Nought
  | PositionState.Nought => PositionState.Cross

/-- Per-iteration observable event of the game loop: a reported parse
failure, a reported move failure, or a successful placement's outcome. -/
inductive TurnEvent where
  | parseFailed (e : ParseMoveError)
  | moveFailed (e : MoveError)
  | moved (r : GameResult)
deriving DecidableEq, Repr

/-- Terminal state of the game loop: input exhaustion, an explicit quit, or
a game-ending placement result. -/
inductive Terminal where
  | inputFailure
  | quitGame
  | gameOver (r : GameResult)
deriving DecidableEq, Repr

/-- Loop of `GameBoard::play_game_with_reader`, instantiated at the scripted
reader `PresetMoveReader` (represented by the list of lines it has yet to
produce; by the reader's contract those come back one per call, in order).
Each iteration pulls one line, trims it, parses it, and either reports a
parse error (same side, next line), quits, applies `make_move` and reports
a move error (same side, next line), flips sides on `Ongoing`, or
terminates on a `Draw` or win result. Returns the event trace, the
terminal state, and the final board. -/
def game_loop (b : GameBoard) (side : PositionState) :
    List String → List TurnEvent × Terminal × GameBoard
  | [] => ([], Terminal.inputFailure, b)
  | line :: rest =>
    match parse_move line.trim with
    | Except.error e =>
      let out := game_loop b side rest
      (TurnEvent.parseFailed e :: out.1, out.2)
    | Except.ok ParsedMove.Quit => ([], Terminal.quitGame, b)
    | Except.ok (ParsedMove.Move pos) =>
      match b.make_move pos side with
      | (b2, Except.error e) =>
        let out := game_loop b2 side rest
        (TurnEvent.moveFailed e :: out.1, out.2)
      | (b2, Except.ok GameResult.Ongoing) =>
        let out := game_loop b2 side.other rest
        (TurnEvent.moved GameResult.Ongoing :: out.1, out.2)
      | (b2, Except.ok r) =>
        ([TurnEvent.moved r], Terminal.gameOver r, b2)

/-- Embeds `GameBoard::play_game_with_reader` on a scripted input sequence:
Nought always moves first. -/
def play_game_with_reader (b : GameBoard) (inputs : List String) :
    List TurnEvent × Terminal × GameBoard :=
  game_loop b PositionState.Nought inputs

/-- Number of occupied cells of a board. -/
def countOccupied (b : GameBoard) : Nat :=
  b.data.countP fun o => o.isSome

/-- Boards obtainable from `GameBoard::new` by a sequence of `make_move`
calls (successful or not). -/
inductive Reachable : GameBoard → Prop
  | init {N : Nat} {b : GameBoard} : GameBoard.new N = some b → Reachable b
  | step {b : GameBoard} (pos : Coordinate) (m : PositionState) :
      Reachable b → Reachable (b.make_move pos m).1

/-! Helper lemmas about the embedded operations. -/

/-- The validity check succeeds exactly on in-bounds coordinates. -/
theorem valid_coordinate_iff (b : GameBoard) (pos : Coordinate) :
    b.valid_coordinate pos = true ↔ (pos.x < b.dimension ∧ pos.y < b.dimension) := by
  simp [GameBoard.valid_coordinate]

/-- Shape of a successful `make_move`: the coordinate was in bounds, the
cell was empty, and the result is the line-scan outcome on the updated
board. -/
theorem make_move_ok_shape (b : GameBoard) (pos : Coordinate) (m : PositionState)
    (b2 : GameBoard) (r : GameResult)
    (h : b.make_move pos m = (b2, Except.ok r)) :
    pos.x < b.dimension ∧ pos.y < b.dimension ∧ b.cellAt pos = none ∧
    b2 = { b with data := b.data.set (b.to_index pos) (some m)
                  moves_made := b.moves_made + 1 } ∧
    r = b2.determine_game_result pos m := by
  unfold GameBoard.make_move at h
  by_cases hv : b.valid_coordinate pos
  · rw [if_neg (by simp [hv])] at h
    obtain ⟨hx, hy⟩ := (valid_coordinate_iff b pos).mp hv
    cases hc : b.cellAt pos with
    | some s => rw [hc] at h; exact absurd h (by simp)
    | none =>
      rw [hc] at h
      simp only [Prod.mk.injEq, Except.ok.injEq] at h
      exact ⟨hx, hy, rfl, h.1.symm, by rw [← h.1]; exact h.2.symm⟩
  · rw [if_pos (by simp [hv])] at h
    exact absurd h (by simp)

/-- The state after `k` calls to `read` on a fresh preset reader: the cursor
has advanced by `k`, clamped at the script length. -/
theorem afterReads_new (ms : List String) (k : Nat) :
    (PresetMoveReader.new ms).afterReads k =
      { moves := ms, index := min k ms.length } := by
  induction k with
  | zero => simp [PresetMoveReader.afterReads, PresetMoveReader.new]
  | succ k ih =>
    simp only [PresetMoveReader.afterReads, ih, PresetMoveReader.read]
    by_cases h : ms.length ≤ k
    · rw [if_pos (by simp; omega)]
      simp only [PresetMoveReader.mk.injEq, true_and]
      omega
    · rw [if_neg (by simp; omega)]
      simp only [PresetMoveReader.mk.injEq, true_and]
      omega

/-- C7: For every finite sequence of strings used to construct a scripted
input source, successive calls to its read operation return `some` of each
element of the sequence in order, one element per call, and every call
after the sequence is exhausted returns `none`. -/
theorem preset_reader_sequential (ms : List String) (k : Nat) :
    (PresetMoveReader.new ms).output k = ms[k]? := by
  unfold PresetMoveReader.output
  rw [afterReads_new]
  unfold PresetMoveReader.read
  by_cases h : ms.length ≤ k
  · rw [if_pos (by simp; omega)]
    exact (List.getElem?_eq_none h).symm
  · rw [if_neg (by simp; omega)]
    have hk : k < ms.length := by omega
    have hmin : min k ms.length = k := by omega
    rw [hmin]
    rw [List.getElem?_eq_getElem hk]
    simp [List.getD, List.getElem?_eq_getElem hk]

/-- C9: Constructing a board with dimension zero does not return a board:
the field initializer `dimension.pow(2) - 1` underflows `usize`, so
`GameBoard::new(0)` panics in checked builds, which the embedding records
as `none`. -/
theorem new_zero_dim_underflow : GameBoard.new 0 = none := rfl

/-- C3: `make_move` returns an error if and only if the coordinate is out
of bounds (then `InvalidCoordinate` carrying the offending coordinate,
checked first) or the target cell is already occupied (then `InvalidMove`
carrying the attempted and the occupying mark); on an in-bounds empty cell
it succeeds. -/
theorem make_move_error_conditions (b : GameBoard) (pos : Coordinate) (m : PositionState) :
    ((∃ e, (b.make_move pos m).2 = Except.error e) ↔
        (b.dimension ≤ pos.x ∨ b.dimension ≤ pos.y ∨ ∃ occ, b.cellAt pos = some occ))
    ∧ ((b.dimension ≤ pos.x ∨ b.dimension ≤ pos.y) →
        (b.make_move pos m).2 = Except.error (MoveError.InvalidCoordinate pos))
    ∧ (∀ occ, pos.x < b.dimension → pos.y < b.dimension → b.cellAt pos = some occ →
        (b.make_move pos m).2 = Except.error (MoveError.InvalidMove m occ))
    ∧ (pos.x < b.dimension → pos.y < b.dimension → b.cellAt pos = none →
        (b.make_move pos m).2 =
          Except.ok (((b.make_move pos m).1).determine_game_result pos m)) := by
  unfold GameBoard.make_move
  by_cases hv : b.valid_coordinate pos
  · obtain ⟨hx, hy⟩ := (valid_coordinate_iff b pos).mp hv
    rw [if_neg (by simp [hv])]
    cases hc : b.cellAt pos with
    | some s =>
      refine ⟨⟨fun _ => Or.inr (Or.inr ⟨s, rfl⟩), fun _ => ⟨_, rfl⟩⟩, ?_, ?_, ?_⟩
      · intro h; omega
      · intro occ _ _ hocc
        cases hocc
        rfl
      · intro _ _ hne; exact absurd hne (by simp)
    | none =>
      refine ⟨⟨?_, ?_⟩, ?_, ?_, ?_⟩
      · rintro ⟨e, he⟩; exact absurd he (by simp)
      · rintro (h | h | ⟨occ, hocc⟩)
        · omega
        · omega
        · exact absurd hocc (by simp)
      · intro h; omega
      · intro occ _ _ hocc; exact absurd hocc (by simp)
      · intro _ _ _; rfl
  · have hxy : b.dimension ≤ pos.x ∨ b.dimension ≤ pos.y := by
      rcases Nat.lt_or_ge pos.x b.dimension with hx | hx
      · rcases Nat.lt_or_ge pos.y b.dimension with hy | hy
        · exact absurd ((valid_coordinate_iff b pos).mpr ⟨hx, hy⟩) hv
        · exact Or.inr hy
      · exact Or.inl hx
    rw [if_pos (by simp [hv])]
    refine ⟨⟨fun _ => hxy.elim Or.inl (fun h => Or.inr (Or.inl h)), fun _ => ⟨_, rfl⟩⟩, ?_, ?_, ?_⟩
    · intro _; rfl
    · intro occ hx hy _; omega
    · intro hx hy _; omega

/-- C4: Whenever a placement attempt returns a move-legality error
(`InvalidCoordinate` or `InvalidMove`), the board is left completely
unchanged — every cell keeps its previous contents and `moves_made` is not
incremented, since the returned board state equals the input board. -/
theorem make_move_error_board_unchanged (b : GameBoard) (pos : Coordinate)
    (m : PositionState) (e : MoveError)
    (h : (b.make_move pos m).2 = Except.error e) :
    (b.make_move pos m).1 = b := by
  unfold GameBoard.make_move at h ⊢
  by_cases hv : b.valid_coordinate pos
  · rw [if_neg (by simp [hv])] at h ⊢
    cases hc : b.cellAt pos with
    | some s => rfl
    | none => rw [hc] at h; exact absurd h (by simp)
  · rw [if_pos (by simp [hv])]

/-- C8: Running the game loop with the same scripted input sequence against
two independently constructed boards of the same dimension produces
identical results in both runs — the same event trace (placement outcomes
and reported errors), the same terminal state, and the same final board. -/
theorem replay_deterministic (N : Nat) (inputs : List String)
    (b1 b2 : GameBoard)
    (h1 : GameBoard.new N = some b1) (h2 : GameBoard.new N = some b2) :
    play_game_with_reader b1 inputs = play_game_with_reader b2 inputs := by
  rw [h1] at h2
  injection h2 with h2
  rw [h2]

/-- A winning value produced by the line-scan loop is always the win for
the scanned mark. -/
theorem lineGo_some_value (b : GameBoard) (m : PositionState) (f : Nat → Coordinate) :
    ∀ (l : List Nat) (r : GameResult), lineGo b m f l = some r → r = GameResult.ofState m := by
  intro l
  induction l with
  | nil => intro r h; exact absurd h (by simp [lineGo])
  | cons i rest ih =>
    intro r h
    unfold lineGo at h
    split at h
    · split at h
      · exact absurd h (by simp)
      · split at h
        · injection h with h
          exact h.symm
        · exact ih r h
    · exact absurd h (by simp)

/-- Characterization of the line-scan loop on the tail `[j, …, dimension-1]`
of the index range: it reports a win exactly when the tail is nonempty and
every remaining cell of the line carries the scanned mark. -/
theorem lineGo_range'_some_iff (b : GameBoard) (m : PositionState) (f : Nat → Coordinate) :
    ∀ (k j : Nat), j + k = b.dimension →
      (lineGo b m f (List.range' j k) = some (GameResult.ofState m) ↔
        (0 < k ∧ ∀ i, j ≤ i → i < b.dimension → b.cellAt (f i) = some m)) := by
  intro k
  induction k with
  | zero =>
    intro j hj
    simp [lineGo]
  | succ k ih =>
    intro j hj
    have hjd : j < b.dimension := by omega
    rw [List.range'_succ]
    unfold lineGo
    split
    · rename_i s heq
      by_cases hs : s = m
      · subst hs
        rw [if_neg (by simp)]
        by_cases hi : j = b.dimension - 1
        · have hk : k = 0 := by omega
          subst hk
          rw [if_pos hi]
          constructor
          · intro _
            refine ⟨Nat.zero_lt_one, fun i hji hilt => ?_⟩
            have hij : i = j := by omega
            rw [hij, heq]
          · intro _; rfl
        · have hk : 0 < k := by omega
          rw [if_neg hi]
          rw [ih (j + 1) (by omega)]
          constructor
          · rintro ⟨-, hall⟩
            refine ⟨Nat.succ_pos k, fun i hji hilt => ?_⟩
            rcases Nat.eq_or_lt_of_le hji with rfl | hlt
            · exact heq
            · exact hall i hlt hilt
          · rintro ⟨-, hall⟩
            exact ⟨hk, fun i hji hilt => hall i (by omega) hilt⟩
      · rw [if_pos (by simp [hs])]
        constructor
        · intro h; exact absurd h (by simp)
        · rintro ⟨-, hall⟩
          have hj2 := hall j le_rfl hjd
          rw [heq] at hj2
          injection hj2 with hj2
          exact absurd hj2 hs
    · rename_i heq
      constructor
      · intro h; exact absurd h (by simp)
      · rintro ⟨-, hall⟩
        have hj2 := hall j le_rfl hjd
        rw [heq] at hj2
        exact absurd hj2 (by simp)

/-- The line check of `determine_line_result` reports a win exactly when
all `dimension` cells of the line carry the scanned mark (the dimension
being positive). -/
theorem determine_line_result_some_iff (b : GameBoard) (m : PositionState)
    (f : Nat → Coordinate) (hN : 0 < b.dimension) :
    b.determine_line_result m f = some (GameResult.ofState m) ↔
      ∀ i, i < b.dimension → b.cellAt (f i) = some m := by
  unfold GameBoard.determine_line_result
  rw [List.range_eq_range']
  rw [lineGo_range'_some_iff b m f b.dimension 0 (by omega)]
  constructor
  · rintro ⟨-, hall⟩
    exact fun i hi => hall i (Nat.zero_le i) hi
  · intro hall
    exact ⟨hN, fun i _ hi => hall i hi⟩

/-- The line check as a conditional: a win for the scanned mark when the
whole line carries it, `none` otherwise. -/
theorem determine_line_result_eq_if (b : GameBoard) (m : PositionState)
    (f : Nat → Coordinate) (hN : 0 < b.dimension) :
    b.determine_line_result m f =
      if ∀ i, i < b.dimension → b.cellAt (f i) = some m
      then some (GameResult.ofState m) else none := by
  by_cases h : ∀ i, i < b.dimension → b.cellAt (f i) = some m
  · rw [if_pos h]
    exact (determine_line_result_some_iff b m f hN).mpr h
  · rw [if_neg h]
    cases hd : b.determine_line_result m f with
    | none => rfl
    | some r =>
      have hr : r = GameResult.ofState m := lineGo_some_value b m f _ r hd
      rw [hr] at hd
      exact absurd ((determine_line_result_some_iff b m f hN).mp hd) h

/-- Full characterization of `determine_game_result` on a board of positive
dimension: the win for the placed mark exactly when the column through the
position, the row through it, the main diagonal (when on it), or the
anti-diagonal (when on it) carries that mark on all cells; otherwise a
draw exactly when `moves_made` has reached `max_moves`, else ongoing. -/
theorem determine_game_result_eq_if (b : GameBoard) (pos : Coordinate) (m : PositionState)
    (hN : 0 < b.dimension) :
    b.determine_game_result pos m =
      if ((∀ i, i < b.dimension → b.cellAt { x := pos.x, y := i } = some m) ∨
          (∀ i, i < b.dimension → b.cellAt { x := i, y := pos.y } = some m) ∨
          (pos.x = pos.y ∧ ∀ i, i < b.dimension → b.cellAt { x := i, y := i } = some m) ∨
          (pos.x + pos.y = b.dimension - 1 ∧
            ∀ i, i < b.dimension → b.cellAt { x := i, y := b.dimension - 1 - i } = some m))
      then GameResult.ofState m
      else if b.moves_made = b.max_moves then GameResult.Draw else GameResult.Ongoing := by
  by_cases hC : ∀ i, i < b.dimension → b.cellAt { x := pos.x, y := i } = some m
  · have h1 : b.determine_line_result m (fun y => { x := pos.x, y := y }) =
        some (GameResult.ofState m) :=
      (determine_line_result_some_iff b m _ hN).mpr hC
    unfold GameBoard.determine_game_result
    rw [h1, if_pos (Or.inl hC)]
  · have h1 : b.determine_line_result m (fun y => { x := pos.x, y := y }) = none := by
      rw [determine_line_result_eq_if b m _ hN]
      exact if_neg hC
    by_cases hR : ∀ i, i < b.dimension → b.cellAt { x := i, y := pos.y } = some m
    · have h2 : b.determine_line_result m (fun x => { x := x, y := pos.y }) =
          some (GameResult.ofState m) :=
        (determine_line_result_some_iff b m _ hN).mpr hR
      unfold GameBoard.determine_game_result
      rw [h1, h2, if_pos (Or.inr (Or.inl hR))]
    · have h2 : b.determine_line_result m (fun x => { x := x, y := pos.y }) = none := by
        rw [determine_line_result_eq_if b m _ hN]
        exact if_neg hR
      by_cases hD : pos.x = pos.y ∧ ∀ i, i < b.dimension → b.cellAt { x := i, y := i } = some m
      · have h3 : (if pos.x = pos.y then
            b.determine_line_result m (fun i => { x := i, y := i }) else none) =
            some (GameResult.ofState m) := by
          rw [if_pos hD.1]
          exact (determine_line_result_some_iff b m _ hN).mpr hD.2
        unfold GameBoard.determine_game_result
        rw [h1, h2, h3, if_pos (Or.inr (Or.inr (Or.inl hD)))]
      · have h3 : (if pos.x = pos.y then
            b.determine_line_result m (fun i => { x := i, y := i }) else none) = none := by
          by_cases hxy : pos.x = pos.y
          · rw [if_pos hxy, determine_line_result_eq_if b m _ hN]
            exact if_neg fun hall => hD ⟨hxy, hall⟩
          · exact if_neg hxy
        by_cases hA : pos.x + pos.y = b.dimension - 1 ∧
            ∀ i, i < b.dimension → b.cellAt { x := i, y := b.dimension - 1 - i } = some m
        · have h4 : (if pos.x + pos.y = b.dimension - 1 then
              b.determine_line_result m (fun i => { x := i, y := b.dimension - 1 - i })
              else none) = some (GameResult.ofState m) := by
            rw [if_pos hA.1]
            exact (determine_line_result_some_iff b m _ hN).mpr hA.2
          unfold GameBoard.determine_game_result
          rw [h1, h2, h3, h4, if_pos (Or.inr (Or.inr (Or.inr hA)))]
        · have h4 : (if pos.x + pos.y = b.dimension - 1 then
              b.determine_line_result m (fun i => { x := i, y := b.dimension - 1 - i })
              else none) = none := by
            by_cases hg : pos.x + pos.y = b.dimension - 1
            · rw [if_pos hg, determine_line_result_eq_if b m _ hN]
              exact if_neg fun hall => hA ⟨hg, hall⟩
            · exact if_neg hg
          have hcond : ¬((∀ i, i < b.dimension → b.cellAt { x := pos.x, y := i } = some m) ∨
              (∀ i, i < b.dimension → b.cellAt { x := i, y := pos.y } = some m) ∨
              (pos.x = pos.y ∧ ∀ i, i < b.dimension → b.cellAt { x := i, y := i } = some m) ∨
              (pos.x + pos.y = b.dimension - 1 ∧
                ∀ i, i < b.dimension → b.cellAt { x := i, y := b.dimension - 1 - i } = some m)) := by
            rintro (h | h | h | h)
            · exact hC h
            · exact hR h
            · exact hD h
            · exact hA h
          unfold GameBoard.determine_game_result
          rw [h1, h2, h3, h4, if_neg hcond]

/-- C1: For every board of dimension N and every successful placement of
mark `m` at in-bounds empty coordinate `(px, py)`, `make_move` returns the
win for `m` if and only if, after the mark is recorded, one of the lines
through the placed coordinate is entirely `m` over all N cells: the column
`x = px`, the row `y = py`, the main diagonal when `px = py`, or the
anti-diagonal when `px + py = N - 1`. (Each line scan in `lineGo`
short-circuits to not-a-win at the first mismatching or empty cell by
construction.) -/
theorem place_win_iff_line_complete (b : GameBoard) (pos : Coordinate) (m : PositionState)
    (b2 : GameBoard) (r : GameResult)
    (h : b.make_move pos m = (b2, Except.ok r)) :
    (r = GameResult.ofState m ↔
      (∀ i, i < b.dimension → b2.cellAt { x := pos.x, y := i } = some m) ∨
      (∀ i, i < b.dimension → b2.cellAt { x := i, y := pos.y } = some m) ∨
      (pos.x = pos.y ∧ ∀ i, i < b.dimension → b2.cellAt { x := i, y := i } = some m) ∨
      (pos.x + pos.y = b.dimension - 1 ∧
        ∀ i, i < b.dimension → b2.cellAt { x := i, y := b.dimension - 1 - i } = some m)) := by
  obtain ⟨hx, hy, hcell, hb2, hr⟩ := make_move_ok_shape b pos m b2 r h
  have hdim : b2.dimension = b.dimension := by rw [hb2]
  have hN : 0 < b2.dimension := by omega
  rw [hr, determine_game_result_eq_if b2 pos m hN, hdim]
  by_cases hcond : (∀ i, i < b.dimension → b2.cellAt { x := pos.x, y := i } = some m) ∨
      (∀ i, i < b.dimension → b2.cellAt { x := i, y := pos.y } = some m) ∨
      (pos.x = pos.y ∧ ∀ i, i < b.dimension → b2.cellAt { x := i, y := i } = some m) ∨
      (pos.x + pos.y = b.dimension - 1 ∧
        ∀ i, i < b.dimension → b2.cellAt { x := i, y := b.dimension - 1 - i } = some m)
  · rw [if_pos hcond]
    exact iff_of_true rfl hcond
  · rw [if_neg hcond]
    constructor
    · intro heq
      exfalso
      by_cases hm : b2.moves_made = b2.max_moves
      · rw [if_pos hm] at heq
        cases m <;> simp [GameResult.ofState] at heq
      · rw [if_neg hm] at heq
        cases m <;> simp [GameResult.ofState] at heq
    · intro hc2
      exact absurd hc2 hcond

/-- Lookup in an all-empty grid always yields an empty cell. -/
theorem getD_replicate_none :
    ∀ (n i : Nat), (List.replicate n (none : Option PositionState)).getD i none = none := by
  intro n
  induction n with
  | zero => intro i; simp
  | succ n ih =>
    intro i
    cases i with
    | zero => simp [List.replicate]
    | succ i => simp [List.replicate, ih i]

/-- Setting an empty slot to an occupied one raises the occupied-cell count
by exactly one. -/
theorem countP_isSome_set :
    ∀ (l : List (Option PositionState)) (i : Nat) (v : PositionState),
      i < l.length → l.getD i none = none →
      (l.set i (some v)).countP (fun o => o.isSome) =
        l.countP (fun o => o.isSome) + 1 := by
  intro l
  induction l with
  | nil => intro i v hi _; simp at hi
  | cons a t ih =>
    intro i v hi he
    cases i with
    | zero =>
      simp only [List.getD_cons_zero] at he
      subst he
      simp [List.countP_cons]
    | succ i =>
      simp only [List.getD_cons_succ] at he
      simp only [List.length_cons, Nat.succ_lt_succ_iff] at hi
      simp only [List.set_cons_succ, List.countP_cons, ih i v hi he]
      omega

/-- In-bounds coordinates map to in-range raw indices. -/
theorem to_index_lt (N x y : Nat) (hx : x < N) (hy : y < N) : x + y * N < N * N := by
  have h1 : y * N ≤ (N - 1) * N := Nat.mul_le_mul_right N (by omega)
  have h2 : (N - 1) * N = N * N - N := by rw [Nat.sub_mul, Nat.one_mul]
  have h3 : N ≤ N * N := Nat.le_mul_of_pos_left N (by omega)
  omega

/-- Structural invariant of every board reachable from `GameBoard::new`:
positive dimension, a grid of exactly `dimension²` slots, the
maximum-move counter frozen at `dimension² - 1`, and `moves_made` equal to
the number of occupied cells. -/
theorem reachable_fields (b : GameBoard) (h : Reachable b) :
    0 < b.dimension ∧ b.data.length = b.dimension ^ 2 ∧
    b.max_moves = b.dimension ^ 2 - 1 ∧ b.moves_made = countOccupied b := by
  induction h with
  | init hnew =>
    rename_i N b0
    unfold GameBoard.new checkedSub at hnew
    by_cases hN : 1 ≤ N ^ 2
    · rw [if_pos hN] at hnew
      simp only [Option.map_some'] at hnew
      injection hnew with hnew
      subst hnew
      refine ⟨by nlinarith, ?_, rfl, ?_⟩
      · simp [Nat.pow_two]
      · simp only [countOccupied]
        rw [List.countP_eq_zero.mpr]
        intro a ha
        rw [List.eq_of_mem_replicate ha]
        simp
    · rw [if_neg hN] at hnew
      exact absurd hnew (by simp)
  | step pos m hb ih =>
    rename_i b0
    obtain ⟨hdim, hlen, hmax, hcount⟩ := ih
    unfold GameBoard.make_move
    by_cases hv : b0.valid_coordinate pos
    · rw [if_neg (by simp [hv])]
      obtain ⟨hx, hy⟩ := (valid_coordinate_iff b0 pos).mp hv
      cases hc : b0.cellAt pos with
      | some s => exact ⟨hdim, hlen, hmax, hcount⟩
      | none =>
        have hidx : b0.to_index pos < b0.data.length := by
          rw [hlen, Nat.pow_two]
          exact to_index_lt b0.dimension pos.x pos.y hx hy
        refine ⟨hdim, ?_, hmax, ?_⟩
        · simp [List.length_set, hlen]
        · simp only [countOccupied]
          unfold GameBoard.cellAt at hc
          rw [countP_isSome_set b0.data (b0.to_index pos) m hidx hc]
          simp only [countOccupied] at hcount
          omega
    · rw [if_pos (by simp [hv])]
      exact ⟨hdim, hlen, hmax, hcount⟩

/-- C5: For every dimension N ≥ 1, a freshly constructed board has all
cells empty and `moves_made` zero, and after any sequence of `make_move`
operations the invariant holds that `moves_made` equals the number of
non-empty cells and `moves_made ≤ N²`. -/
theorem board_invariant_moves_eq_occupied :
    (∀ (N : Nat) (b0 : GameBoard), GameBoard.new N = some b0 →
      (∀ c, b0.cellAt c = none) ∧ b0.moves_made = 0) ∧
    (∀ b : GameBoard, Reachable b →
      b.moves_made = countOccupied b ∧ b.moves_made ≤ b.dimension ^ 2) := by
  constructor
  · intro N b0 hnew
    unfold GameBoard.new checkedSub at hnew
    by_cases hN : 1 ≤ N ^ 2
    · rw [if_pos hN] at hnew
      simp only [Option.map_some'] at hnew
      injection hnew with hnew
      subst hnew
      exact ⟨fun c => getD_replicate_none _ _, rfl⟩
    · rw [if_neg hN] at hnew
      exact absurd hnew (by simp)
  · intro b hreach
    obtain ⟨hdim, hlen, hmax, hcount⟩ := reachable_fields b hreach
    refine ⟨hcount, ?_⟩
    have hle : countOccupied b ≤ b.data.length := List.countP_le_length _
    omega

/-- C2: For every reachable board of dimension N ≥ 1, a successful
placement that completes no winning line returns a draw exactly when
`moves_made` (after the increment for this placement) equals N² − 1 —
one placement early, because the maximum-move counter was initialized to
`dimension² − 1` at construction. -/
theorem draw_reported_one_move_early (b : GameBoard) (pos : Coordinate) (m : PositionState)
    (b2 : GameBoard) (r : GameResult)
    (hreach : Reachable b)
    (h : b.make_move pos m = (b2, Except.ok r))
    (hnowin : ¬((∀ i, i < b.dimension → b2.cellAt { x := pos.x, y := i } = some m) ∨
      (∀ i, i < b.dimension → b2.cellAt { x := i, y := pos.y } = some m) ∨
      (pos.x = pos.y ∧ ∀ i, i < b.dimension → b2.cellAt { x := i, y := i } = some m) ∨
      (pos.x + pos.y = b.dimension - 1 ∧
        ∀ i, i < b.dimension → b2.cellAt { x := i, y := b.dimension - 1 - i } = some m))) :
    (r = GameResult.Draw ↔ b2.moves_made = b.dimension ^ 2 - 1) := by
  obtain ⟨hx, hy, hcell, hb2, hr⟩ := make_move_ok_shape b pos m b2 r h
  obtain ⟨hdim0, hlen, hmax, hcount⟩ := reachable_fields b hreach
  have hdim : b2.dimension = b.dimension := by rw [hb2]
  have hmax2 : b2.max_moves = b.dimension ^ 2 - 1 := by rw [hb2]; exact hmax
  have hN : 0 < b2.dimension := by omega
  rw [hr, determine_game_result_eq_if b2 pos m hN, hdim, if_neg hnowin]
  by_cases hm : b2.moves_made = b2.max_moves
  · rw [if_pos hm]
    rw [hmax2] at hm
    exact iff_of_true rfl hm
  · rw [if_neg hm]
    constructor
    · intro hh
      exact absurd hh (by simp)
    · intro hh
      exfalso
      apply hm
      rw [hmax2]
      exact hh

/-- C10: For every reachable board of dimension N ≥ 1, a successful
placement into the last remaining empty cell that completes no winning
line returns `Ongoing`, not `Draw`: `moves_made` then equals N², which
differs from the stored maximum-move counter N² − 1, so a completely full
board is never reported as a draw. -/
theorem full_board_final_move_ongoing (b : GameBoard) (pos : Coordinate) (m : PositionState)
    (b2 : GameBoard) (r : GameResult)
    (hreach : Reachable b)
    (hfull : countOccupied b = b.dimension ^ 2 - 1)
    (h : b.make_move pos m = (b2, Except.ok r))
    (hnowin : ¬((∀ i, i < b.dimension → b2.cellAt { x := pos.x, y := i } = some m) ∨
      (∀ i, i < b.dimension → b2.cellAt { x := i, y := pos.y } = some m) ∨
      (pos.x = pos.y ∧ ∀ i, i < b.dimension → b2.cellAt { x := i, y := i } = some m) ∨
      (pos.x + pos.y = b.dimension - 1 ∧
        ∀ i, i < b.dimension → b2.cellAt { x := i, y := b.dimension - 1 - i } = some m))) :
    r = GameResult.Ongoing := by
  obtain ⟨hx, hy, hcell, hb2, hr⟩ := make_move_ok_shape b pos m b2 r h
  obtain ⟨hdim0, hlen, hmax, hcount⟩ := reachable_fields b hreach
  have hdim : b2.dimension = b.dimension := by rw [hb2]
  have hmax2 : b2.max_moves = b.dimension ^ 2 - 1 := by rw [hb2]; exact hmax
  have hmoves2 : b2.moves_made = b.moves_made + 1 := by rw [hb2]
  have hsq : 0 < b.dimension ^ 2 := Nat.pos_pow_of_pos 2 hdim0
  have hN : 0 < b2.dimension := by omega
  have hm : ¬ b2.moves_made = b2.max_moves := by
    rw [hmoves2, hmax2, hcount, hfull]
    omega
  rw [hr, determine_game_result_eq_if b2 pos m hN, hdim, if_neg hnowin, if_neg hm]

/-- C6: The move parser maps "q" or "Q" to the quit command; maps input
splitting on commas into exactly two fields, each parsing as a
non-negative integer, to a placement at those coordinates; returns
`FormatError` for any other comma-field count; and returns
`CoordinateError` wrapping the numeric-parse failure when a field fails
integer parsing. -/
theorem parse_move_spec (s : String) :
    ((s = "q" ∨ s = "Q") → parse_move s = Except.ok ParsedMove.Quit)
    ∧ (s ≠ "q" → s ≠ "Q" →
        ((∀ a b x y, splitComma s.data = [a, b] →
            parse_usize a = Except.ok x → parse_usize b = Except.ok y →
            parse_move s = Except.ok (ParsedMove.Move { x := x, y := y }))
        ∧ ((splitComma s.data).length ≠ 2 →
            parse_move s = Except.error ParseMoveError.FormatError)
        ∧ (∀ a b e, splitComma s.data = [a, b] → parse_usize a = Except.error e →
            parse_move s = Except.error (ParseMoveError.CoordinateError e))
        ∧ (∀ a b x e, splitComma s.data = [a, b] → parse_usize a = Except.ok x →
            parse_usize b = Except.error e →
            parse_move s = Except.error (ParseMoveError.CoordinateError e)))) := by
  constructor
  · intro h
    unfold parse_move
    rw [if_pos h]
  · intro hq hQ
    have hcond : ¬(s = "q" ∨ s = "Q") := by
      rintro (h | h)
      · exact hq h
      · exact hQ h
    refine ⟨?_, ?_, ?_, ?_⟩
    · intro a b x y hsplit hx hy
      unfold parse_move
      rw [if_neg hcond]
      simp [hsplit, hx, hy]
    · intro hlen
      unfold parse_move
      rw [if_neg hcond]
      rcases hsp : splitComma s.data with _ | ⟨a, _ | ⟨b, _ | ⟨c, t⟩⟩⟩
      · rfl
      · rfl
      · rw [hsp] at hlen
        simp at hlen
      · rfl
    · intro a b e hsplit he
      unfold parse_move
      rw [if_neg hcond]
      simp [hsplit, he]
    · intro a b x e hsplit hx he
      unfold parse_move
      rw [if_neg hcond]
      simp [hsplit, hx, he]

/-! Concrete boards used to instantiate the theorems above. -/

/-- Fresh 1×1 board, as produced by `GameBoard::new(1)`. -/
def board1 : GameBoard :=
  { dimension := 1, data := [none], moves_made := 0, max_moves := 0 }

/-- The 1×1 board after Nought takes its single cell. -/
def board1Won : GameBoard :=
  { dimension := 1, data := [some PositionState.Nought], moves_made := 1, max_moves := 0 }

/-- Fresh 2×2 board, as produced by `GameBoard::new(2)`. -/
def board2 : GameBoard :=
  { dimension := 2, data := List.replicate 4 none, moves_made := 0, max_moves := 3 }

/-- The 2×2 board after Cross takes (0,0) and (1,0). -/
def board2Pre : GameBoard :=
  { dimension := 2
    data := [some PositionState.Cross, some PositionState.Cross, none, none]
    moves_made := 2, max_moves := 3 }

/-- The 2×2 board after Cross takes (0,0) and (1,0) and Nought takes (0,1). -/
def board2Drawn : GameBoard :=
  { dimension := 2
    data := [some PositionState.Cross, some PositionState.Cross,
             some PositionState.Nought, none]
    moves_made := 3, max_moves := 3 }

/-- Fresh 3×3 board, as produced by `GameBoard::new(3)`. -/
def board3 : GameBoard :=
  { dimension := 3, data := List.replicate 9 none, moves_made := 0, max_moves := 8 }

/-- The 3×3 board with (0,0) occupied by Nought. -/
def board3Occ : GameBoard :=
  { dimension := 3
    data := some PositionState.Nought :: List.replicate 8 none
    moves_made := 1, max_moves := 8 }

/-- A 3×3 board with eight cells filled and no winning line through the
last empty cell (2,2). -/
def board3Pre : GameBoard :=
  { dimension := 3
    data := [some PositionState.Cross, some PositionState.Nought, some PositionState.Cross,
             some PositionState.Nought, some PositionState.Cross, some PositionState.Cross,
             some PositionState.Nought, some PositionState.Cross, none]
    moves_made := 8, max_moves := 8 }

/-- The board `board3Pre` with the last empty cell (2,2) taken by Nought. -/
def board3Full : GameBoard :=
  { dimension := 3
    data := [some PositionState.Cross, some PositionState.Nought, some PositionState.Cross,
             some PositionState.Nought, some PositionState.Cross, some PositionState.Cross,
             some PositionState.Nought, some PositionState.Cross, some PositionState.Nought]
    moves_made := 9, max_moves := 8 }

/-- The two-Cross 2×2 position is reachable from `GameBoard::new(2)`. -/
theorem reachable_board2Pre : Reachable board2Pre :=
  Reachable.step { x := 1, y := 0 } PositionState.Cross
    (Reachable.step { x := 0, y := 0 } PositionState.Cross
      (@Reachable.init 2 board2 rfl))

/-- The eight-cell 3×3 position is reachable from `GameBoard::new(3)`. -/
theorem reachable_board3Pre : Reachable board3Pre :=
  Reachable.step { x := 1, y := 2 } PositionState.Cross
    (Reachable.step { x := 0, y := 2 } PositionState.Nought
      (Reachable.step { x := 2, y := 1 } PositionState.Cross
        (Reachable.step { x := 1, y := 1 } PositionState.Cross
          (Reachable.step { x := 0, y := 1 } PositionState.Nought
            (Reachable.step { x := 2, y := 0 } PositionState.Cross
              (Reachable.step { x := 1, y := 0 } PositionState.Nought
                (Reachable.step { x := 0, y := 0 } PositionState.Cross
                  (@Reachable.init 3 board3 rfl))))))))

/-- Witness for C1: on the 1×1 board, placing Nought at (0,0) succeeds and
the returned result is the win for Nought, matching the completed column. -/
theorem place_win_iff_line_complete_witness :
    board1.make_move { x := 0, y := 0 } PositionState.Nought =
      (board1Won, Except.ok GameResult.NoughtWin) ∧
    GameResult.NoughtWin = GameResult.ofState PositionState.Nought :=
  ⟨rfl,
    (place_win_iff_line_complete board1 { x := 0, y := 0 } PositionState.Nought
        board1Won GameResult.NoughtWin rfl).mpr (Or.inl (by decide))⟩

/-- Witness for C2: on the reachable 2×2 position with (0,0) and (1,0)
taken by Cross, Nought's non-winning placement at (0,1) is the third
move, and it is reported as a draw because 3 = 2² − 1. -/
theorem draw_reported_one_move_early_witness :
    board2Pre.make_move { x := 0, y := 1 } PositionState.Nought =
      (board2Drawn, Except.ok GameResult.Draw) ∧
    (GameResult.Draw = GameResult.Draw ↔
      board2Drawn.moves_made = board2Pre.dimension ^ 2 - 1) :=
  ⟨rfl,
    draw_reported_one_move_early board2Pre { x := 0, y := 1 } PositionState.Nought
      board2Drawn GameResult.Draw reachable_board2Pre rfl (by decide)⟩

/-- Witness for C3: out-of-bounds placement, placement on an occupied
cell, and placement on an in-bounds empty cell, each on a concrete 3×3
board. -/
theorem make_move_error_conditions_witness :
    (board3.make_move { x := 5, y := 0 } PositionState.Cross).2 =
      Except.error (MoveError.InvalidCoordinate { x := 5, y := 0 }) ∧
    (board3Occ.make_move { x := 0, y := 0 } PositionState.Cross).2 =
      Except.error (MoveError.InvalidMove PositionState.Cross PositionState.Nought) ∧
    (board3.make_move { x := 1, y := 1 } PositionState.Cross).2 =
      Except.ok (((board3.make_move { x := 1, y := 1 } PositionState.Cross).1).determine_game_result
        { x := 1, y := 1 } PositionState.Cross) :=
  ⟨(make_move_error_conditions board3 { x := 5, y := 0 } PositionState.Cross).2.1
      (Or.inl (by decide)),
    (make_move_error_conditions board3Occ { x := 0, y := 0 } PositionState.Cross).2.2.1
      PositionState.Nought (by decide) (by decide) rfl,
    (make_move_error_conditions board3 { x := 1, y := 1 } PositionState.Cross).2.2.2
      (by decide) (by decide) rfl⟩

/-- Witness for C4: the failed out-of-bounds placement at (9,9) leaves the
3×3 board unchanged. -/
theorem make_move_error_board_unchanged_witness :
    (board3.make_move { x := 9, y := 9 } PositionState.Nought).1 = board3 :=
  make_move_error_board_unchanged board3 { x := 9, y := 9 } PositionState.Nought
    (MoveError.InvalidCoordinate { x := 9, y := 9 }) rfl

/-- Witness for C5: the fresh 3×3 board has cell (2,2) empty and zero
moves, and on the reachable two-move 2×2 position the move counter equals
the occupied-cell count and is within the cell budget. -/
theorem board_invariant_moves_eq_occupied_witness :
    board3.cellAt { x := 2, y := 2 } = none ∧
    board3.moves_made = 0 ∧
    board2Pre.moves_made = countOccupied board2Pre ∧
    board2Pre.moves_made ≤ board2Pre.dimension ^ 2 :=
  ⟨(board_invariant_moves_eq_occupied.1 3 board3 rfl).1 { x := 2, y := 2 },
    (board_invariant_moves_eq_occupied.1 3 board3 rfl).2,
    (board_invariant_moves_eq_occupied.2 board2Pre reachable_board2Pre).1,
    (board_invariant_moves_eq_occupied.2 board2Pre reachable_board2Pre).2⟩

/-- Witness for C6: the parser's behavior on the specification's concrete
examples. -/
theorem parse_move_spec_witness :
    parse_move "3,6" = Except.ok (ParsedMove.Move { x := 3, y := 6 }) ∧
    parse_move "q" = Except.ok ParsedMove.Quit ∧
    parse_move "Q" = Except.ok ParsedMove.Quit ∧
    parse_move "1,2,3" = Except.error ParseMoveError.FormatError ∧
    parse_move "a,1" =
      Except.error (ParseMoveError.CoordinateError ParseIntError.InvalidDigit) ∧
    parse_move "," = Except.error (ParseMoveError.CoordinateError ParseIntError.Empty) ∧
    parse_move "-1,0" =
      Except.error (ParseMoveError.CoordinateError ParseIntError.InvalidDigit) :=
  ⟨((parse_move_spec "3,6").2 (by decide) (by decide)).1 ['3'] ['6'] 3 6 rfl rfl rfl,
    (parse_move_spec "q").1 (Or.inl rfl),
    (parse_move_spec "Q").1 (Or.inr rfl),
    ((parse_move_spec "1,2,3").2 (by decide) (by decide)).2.1 (by decide),
    ((parse_move_spec "a,1").2 (by decide) (by decide)).2.2.1 ['a'] ['1']
      ParseIntError.InvalidDigit rfl rfl,
    ((parse_move_spec ",").2 (by decide) (by decide)).2.2.1 [] []
      ParseIntError.Empty rfl rfl,
    ((parse_move_spec "-1,0").2 (by decide) (by decide)).2.2.1 ['-', '1'] ['0']
      ParseIntError.InvalidDigit rfl rfl⟩

/-- Witness for C8: the repository's own scripted test sequence replayed
against two boards built by `GameBoard::new(3)`. -/
theorem replay_deterministic_witness :
    play_game_with_reader board3 ["0,0", "1,1", "0,1", "2,0", "0,2"] =
      play_game_with_reader board3 ["0,0", "1,1", "0,1", "2,0", "0,2"] :=
  replay_deterministic 3 ["0,0", "1,1", "0,1", "2,0", "0,2"] board3 board3 rfl rfl

/-- Witness for C10: filling the last empty cell (2,2) of the reachable
eight-cell 3×3 position completes no line, and the result is `Ongoing`
rather than `Draw`. -/
theorem full_board_final_move_ongoing_witness :
    board3Pre.make_move { x := 2, y := 2 } PositionState.Nought =
      (board3Full, Except.ok GameResult.Ongoing) ∧
    GameResult.Ongoing = GameResult.Ongoing :=
  ⟨rfl,
    full_board_final_move_ongoing board3Pre { x := 2, y := 2 } PositionState.Nought
      board3Full GameResult.Ongoing reachable_board3Pre (by decide) rfl (by decide)⟩
